import Mathlib

/-!
Verification of the data merge and extrema-labeling logic of the
MMM-WeatherChartD3 widget (`MMM-WeatherChartD3.js`).

The embedding models:
* `keepExtremes` (source lines 330-347): the local min/max selector used
  for sparse chart labels;
* the hourly/daily series merge performed inline in `getDom`
  (source lines 202-209): filter the daily series to dates strictly after
  the latest hourly date, concatenate, and stably sort by date;
* the `period` assignment of `svgAddPrecipitation` (source line 442),
  where out-of-bounds array access is modelled by `Option` (JS would
  throw a `TypeError` on `undefined.date`);
* `ifNan` (source lines 183-185) and the temperature axis-domain
  accessors of `getDom` (source lines 262-268).

Dates and numeric values are modelled as `Int` (all inputs of interest
are integral); an optional field is `Option Int` with `none` for an
absent (`undefined`/`null`) value.  `precipitationAmount` distinguishes
`undefined` (`none`) from `null` (`some none`) because the source
filters on both separately.
-/

namespace WeatherChartD3

/-- Model of one weather sample (the fields used by the claims).
`date` is the required timestamp; the other fields are optional. -/
structure Sample where
  date : Int
  temperature : Option Int := none
  minTemperature : Option Int := none
  maxTemperature : Option Int := none
  feelsLikeTemp : Option Int := none
  precipitationAmount : Option (Option Int) := none
deriving DecidableEq, Repr, Inhabited

/-! ## Extrema selector: `keepExtremes` (source lines 330-347) -/

/-- JS `Number.MAX_SAFE_INTEGER`, the initial value of `lastValue`. -/
def maxSafeInteger : Int := 9007199254740991

/-- The `minDelta` guard of `keepExtremes`:
`minDelta === undefined || Math.abs(d0 - lastValue) > minDelta`. -/
def minDeltaPass (minDelta : Option Int) (d0 lastValue : Int) : Bool :=
  match minDelta with
  | none => true
  | some md => decide (|d0 - lastValue| > md)

/-- The loop of `keepExtremes`, starting at index 2 of the original data:
the argument list is `data.tail`, so a pattern `a :: b :: rest`
corresponds to the pair `(data[i-1], data[i])`, and `rest = []` exactly
when `i == data.length - 1`.  On a turning point the direction flips and
`data[i-1]` (here `a`) is emitted when the `minDelta` guard passes. -/
def keepLoop (f : α → Int) (minDelta : Option Int) :
    Int → Int → List α → List α
  | _, _, [] => []
  | _, _, [_] => []
  | direction, lastValue, a :: b :: rest =>
    if rest.isEmpty || (decide (direction > 0) && decide (f b < f a))
        || (decide (direction < 0) && decide (f b > f a)) then
      if minDeltaPass minDelta (f a) lastValue then
        a :: keepLoop f minDelta (-direction) (f a) (b :: rest)
      else
        keepLoop f minDelta (-direction) lastValue (b :: rest)
    else
      keepLoop f minDelta direction lastValue (b :: rest)

/-- Initial direction:
`data.length <= 1 || fctGet(data[1]) > fctGet(data[0]) ? -1 : 1`. -/
def initDirection (data : List α) (f : α → Int) : Int :=
  match data with
  | a :: b :: _ => if f b > f a then -1 else 1
  | _ => -1

/-- `keepExtremes(data, fctGet, minDelta)` from the source: scan from
index 2, emitting `data[i-1]` at each detected turning point, subject to
the `minDelta` guard against the last emitted value. -/
def keepExtremes (data : List α) (f : α → Int) (minDelta : Option Int) :
    List α :=
  keepLoop f minDelta (initDirection data f) maxSafeInteger data.tail

/-! ## Series merge (source lines 202-209) -/

/-- `d3.max(dataHourly, d => d.date)`: maximum date of a series
(only ever used on a non-empty series; `0` on `[]` is unreachable). -/
def dateMax : List Sample → Int
  | [] => 0
  | d :: t => t.foldl (fun m s => max m s.date) d.date

/-- The daily filter of `getDom`: when both series are non-empty, keep
only daily samples with `d.date.isAfter(dateMaxHourly)` (strict `>`). -/
def filterDaily (dataHourly dataDaily : List Sample) : List Sample :=
  if 0 < dataHourly.length ∧ 0 < dataDaily.length then
    dataDaily.filter (fun d => decide (dateMax dataHourly < d.date))
  else
    dataDaily

/-- `d3.sort(..., d => d.date)`: stable ascending sort by date. -/
def sortByDate (l : List Sample) : List Sample :=
  l.mergeSort (fun a b => decide (a.date ≤ b.date))

/-- The merged series of `getDom`:
`d3.sort([].concat(dataHourly).concat(filteredDaily), d => d.date)`. -/
def merge (dataHourly dataDaily : List Sample) : List Sample :=
  sortByDate (dataHourly ++ filterDaily dataHourly dataDaily)

/-! ## Period assignment of `svgAddPrecipitation` (source lines 438-444) -/

/-- The first filter of `svgAddPrecipitation`:
`sortedData.filter(d => d.precipitationAmount !== undefined)`. -/
def precipDefined (sortedData : List Sample) : List Sample :=
  sortedData.filter (fun d => d.precipitationAmount.isSome)

/-- JS array access `data[j]` for a possibly negative index:
`undefined` (here `none`) when out of bounds. -/
def jsGet (l : List Sample) (j : Int) : Option Sample :=
  if 0 ≤ j then l[j.toNat]? else none

/-- The neighbor index `i + (i + 1 < data.length ? 1 : -1)` of source
line 442 (an `Int`, since it is `-1` when `data.length == 1`). -/
def neighborIndex (len i : Nat) : Int :=
  (i : Int) + (if i + 1 < len then 1 else -1)

/-- One step of the `forEach` of source line 442:
`d.period = Math.abs(d.date.diff(data[i + ...].date))`.  `none` models
the `TypeError` thrown when the neighbor access yields `undefined`. -/
def periodAt (l : List Sample) (i : Nat) : Option Int :=
  (jsGet l (neighborIndex l.length i)).bind fun nb =>
    (l[i]?).map fun d => |d.date - nb.date|

/-- The whole period assignment: the list of `period` values, or `none`
when some step throws. -/
def assignPeriods (l : List Sample) : Option (List Int) :=
  (List.range l.length).mapM (periodAt l)

/-! ## `ifNan` and the temperature axis domain (source lines 183-185
and 262-268) -/

/-- `ifNan(value, fallback)`: the fallback when the value is absent
(`undefined`/`null`/`NaN`), else the value itself. -/
def ifNan (value : Option Int) (fallback : Int) : Int :=
  value.getD fallback

/-- The accessor inside `d3.min` for the lower bound of the temperature
axis domain:
`Math.min(ifNan(d.temperature, 0), ifNan(d.minTemperature, 0), ifNan(d.feelsLikeTemp, 0)) - 1`. -/
def tempDomainLoAcc (d : Sample) : Int :=
  min (min (ifNan d.temperature 0) (ifNan d.minTemperature 0))
    (ifNan d.feelsLikeTemp 0) - 1

/-- The accessor inside `d3.max` for the upper bound of the temperature
axis domain:
`Math.max(ifNan(d.temperature, 40), ifNan(d.maxTemperature, 40), ifNan(d.feelsLikeTemp, 40)) + 1`. -/
def tempDomainHiAcc (d : Sample) : Int :=
  max (max (ifNan d.temperature 40) (ifNan d.maxTemperature 40))
    (ifNan d.feelsLikeTemp 40) + 1

/-- `d3.min(sortedData, ...)` for the temperature domain lower bound
(`none` on an empty series, as d3 returns `undefined`). -/
def tempDomainLo (data : List Sample) : Option Int :=
  (data.map tempDomainLoAcc).min?

/-- `d3.max(sortedData, ...)` for the temperature domain upper bound. -/
def tempDomainHi (data : List Sample) : Option Int :=
  (data.map tempDomainHiAcc).max?

/-- JS truthiness of an optional numeric field: falsy for `undefined`,
`null`, `0` (and `NaN`). -/
def truthy (v : Option Int) : Bool :=
  match v with
  | none => false
  | some x => decide (x ≠ 0)

/-- The data filter of `svgAddTemperature`:
`sortedData.filter(d => d.temperature && d.temperature !== null)`. -/
def temperaturePlotData (sortedData : List Sample) : List Sample :=
  sortedData.filter (fun d => truthy d.temperature)

/-- A sample carrying only a date (all optional fields absent). -/
def mkDate (t : Int) : Sample :=
  ⟨t, none, none, none, none, none⟩

/-! ## Helper lemmas about `keepLoop` -/

/-- Every element `keepLoop` emits comes from its input list, in input
order. -/
theorem keepLoop_sublist (f : α → Int) (minDelta : Option Int) :
    ∀ (l : List α) (direction lastValue : Int),
      List.Sublist (keepLoop f minDelta direction lastValue l) l
  | [], _, _ => by simp [keepLoop]
  | [_], _, _ => by simp [keepLoop]
  | a :: b :: rest, direction, lastValue => by
    rw [keepLoop]
    split
    · split
      · exact (keepLoop_sublist f minDelta (b :: rest) _ _).cons₂ a
      · exact (keepLoop_sublist f minDelta (b :: rest) _ _).cons a
    · exact (keepLoop_sublist f minDelta (b :: rest) _ _).cons a

/-- A cons does not change `getLast?` of a list already known to end in
some element. -/
theorem getLast?_cons_eq {a x : α} {l : List α} (h : l.getLast? = some x) :
    (a :: l).getLast? = some x := by
  cases l with
  | nil => simp at h
  | cons b t => rw [List.getLast?_cons_cons, h]

/-- With no `minDelta` filter, the loop always ends by emitting the
first element of the final pair, i.e. the second-to-last element of its
input. -/
theorem keepLoop_getLast (f : α → Int) :
    ∀ (l : List α), 2 ≤ l.length → ∀ (direction lastValue : Int),
      (keepLoop f none direction lastValue l).getLast? = l[l.length - 2]?
  | [], h, _, _ => by simp at h
  | [_], h, _, _ => by simp at h
  | [a, b], _, direction, lastValue => by
    simp [keepLoop, minDeltaPass]
  | a :: b :: c :: rs, _, direction, lastValue => by
    have ih := keepLoop_getLast f (b :: c :: rs) (by simp only [List.length_cons]; omega)
    obtain ⟨x, hx⟩ : ∃ x, (b :: c :: rs)[(b :: c :: rs).length - 2]? = some x :=
      ⟨_, List.getElem?_eq_getElem (by simp only [List.length_cons]; omega)⟩
    have hidx : (a :: b :: c :: rs)[(a :: b :: c :: rs).length - 2]? = some x := by
      have hlen : (a :: b :: c :: rs).length - 2 = ((b :: c :: rs).length - 2) + 1 := by
        simp only [List.length_cons]; omega
      rw [hlen, List.getElem?_cons_succ, hx]
    rw [keepLoop, hidx]
    split
    · rw [if_pos (by simp [minDeltaPass])]
      exact getLast?_cons_eq (by rw [ih _ _, hx])
    · rw [ih _ _, hx]

/-! ## Claim theorems for the extrema selector -/

/-- C9: for every input, accessor and `minDelta`, the result of
`keepExtremes` is a subsequence of the input in original order, drawn
entirely from indices at or after 1 (so the index-0 element is never
emitted). -/
theorem keepExtremes_subseq (data : List α) (f : α → Int)
    (minDelta : Option Int) :
    List.Sublist (keepExtremes data f minDelta) data.tail ∧
      List.Sublist (keepExtremes data f minDelta) data := by
  refine ⟨keepLoop_sublist f minDelta data.tail _ _, ?_⟩
  exact (keepLoop_sublist f minDelta data.tail _ _).trans (List.tail_sublist data)

/-- C1 counterexample: the last element is not a candidate.  On the
length-3 input `[1,2,3]` with no `minDelta`, the result is `[2]` and the
last element `3` is absent; on the length-2 input `[1,2]` the loop never
runs and nothing at all is emitted. -/
theorem keepExtremes_last_cex :
    keepExtremes [(1 : Int), 2, 3] (fun x => x) none = [2] ∧
      (3 : Int) ∉ keepExtremes [(1 : Int), 2, 3] (fun x => x) none ∧
      keepExtremes [(1 : Int), 2] (fun x => x) none = [] := by
  decide

/-- C1 (amended): for every input of length at least 3 and every
accessor, the last index is always treated as a turning point, and with
no `minDelta` filter the element emitted there — the final element of
the result — is the second-to-last element of the input, not the last
one. -/
theorem keepExtremes_secondToLast (data : List α) (f : α → Int)
    (h : 3 ≤ data.length) :
    (keepExtremes data f none).getLast? = data[data.length - 2]? := by
  unfold keepExtremes
  have h2 : 2 ≤ data.tail.length := by simp [List.length_tail]; omega
  rw [keepLoop_getLast f data.tail h2]
  cases data with
  | nil => simp at h
  | cons a t =>
    simp only [List.tail_cons, List.length_cons]
    rw [show t.length + 1 - 2 = (t.length - 2) + 1 by simp only [List.length_cons] at h; omega]
    rw [List.getElem?_cons_succ]

/-- Witness for C1: on `[1,2,3,4]` the final emitted element is the
second-to-last input element `3`. -/
theorem keepExtremes_secondToLast_witness :
    (keepExtremes [(1 : Int), 2, 3, 4] (fun x => x) none).getLast? = some 3 := by
  have := keepExtremes_secondToLast [(1 : Int), 2, 3, 4] (fun x => x) (by decide)
  simpa using this

/-- C2 counterexample: on the monotonically increasing input
`[1,2,3,4,5]` with no `minDelta`, the result is not `[5]`. -/
theorem keepExtremes_monotone_cex :
    keepExtremes [(1 : Int), 2, 3, 4, 5] (fun x => x) none ≠ [5] := by
  decide

/-- C2 (amended): on `[1,2,3,4,5]` with no `minDelta`, `keepExtremes`
returns `[2, 4]` (the elements at indices 1 and 3): the initial
direction is set to falling because the sequence rises, so index 1 is
immediately declared a turning point, and the final index emits the
second-to-last element; the final element `5` is never returned. -/
theorem keepExtremes_monotone :
    keepExtremes [(1 : Int), 2, 3, 4, 5] (fun x => x) none = [2, 4] := by
  decide

/-- C3 counterexample: on the zig-zag input `[1,5,1,5,1]` with no
`minDelta`, the result is not `[5,1,5,1]`. -/
theorem keepExtremes_zigzag_cex :
    keepExtremes [(1 : Int), 5, 1, 5, 1] (fun x => x) none ≠ [5, 1, 5, 1] := by
  decide

/-- C3 (amended): on `[1,5,1,5,1]` with no `minDelta`, `keepExtremes`
returns `[1, 5]` (the elements at indices 2 and 3): the peak at index 1
is missed because the initial direction is set to falling while the
first step rises, so the first detected turning point is the valley at
index 2, and the final index emits index 3. -/
theorem keepExtremes_zigzag :
    keepExtremes [(1 : Int), 5, 1, 5, 1] (fun x => x) none = [1, 5] := by
  decide

/-! ## Helper lemmas about `dateMax` and `merge` -/

/-- The accumulator never exceeds the date fold. -/
theorem le_foldlMax (t : List Sample) :
    ∀ (m : Int), m ≤ t.foldl (fun acc s => max acc s.date) m := by
  induction t with
  | nil => intro m; simp
  | cons s t ih =>
    intro m
    rw [List.foldl_cons]
    exact le_trans (le_max_left _ _) (ih _)

/-- Every member's date is bounded by the date fold. -/
theorem mem_le_foldlMax (t : List Sample) :
    ∀ (m : Int) (s : Sample), s ∈ t →
      s.date ≤ t.foldl (fun acc s => max acc s.date) m := by
  induction t with
  | nil => intro m s hs; simp at hs
  | cons x t ih =>
    intro m s hs
    rw [List.foldl_cons]
    rcases List.mem_cons.mp hs with h | h
    · subst h; exact le_trans (le_max_right _ _) (le_foldlMax t _)
    · exact ih _ s h

/-- `dateMax` is an upper bound of the dates of a series. -/
theorem date_le_dateMax {l : List Sample} {s : Sample} (hs : s ∈ l) :
    s.date ≤ dateMax l := by
  cases l with
  | nil => simp at hs
  | cons d t =>
    simp only [dateMax]
    rcases List.mem_cons.mp hs with h | h
    · subst h; exact le_foldlMax t _
    · exact mem_le_foldlMax t _ _ h

/-- The date fold is either the accumulator or the date of a member. -/
theorem foldlMax_eq_or (t : List Sample) :
    ∀ (m : Int), t.foldl (fun acc s => max acc s.date) m = m ∨
      ∃ s ∈ t, t.foldl (fun acc s => max acc s.date) m = s.date := by
  induction t with
  | nil => intro m; left; simp
  | cons x t ih =>
    intro m
    rw [List.foldl_cons]
    rcases ih (max m x.date) with h | ⟨s, hs, h⟩
    · rcases max_choice m x.date with hm | hm
      · left; rw [h, hm]
      · right; exact ⟨x, List.mem_cons_self x t, by rw [h, hm]⟩
    · right; exact ⟨s, List.mem_cons_of_mem x hs, h⟩

/-- `dateMax` of a non-empty series is attained by some member. -/
theorem dateMax_mem {l : List Sample} (h : l ≠ []) :
    ∃ s ∈ l, s.date = dateMax l := by
  cases l with
  | nil => exact absurd rfl h
  | cons d t =>
    simp only [dateMax]
    rcases foldlMax_eq_or t d.date with h1 | ⟨s, hs, h1⟩
    · exact ⟨d, List.mem_cons_self d t, h1.symm⟩
    · exact ⟨s, List.mem_cons_of_mem d hs, h1.symm⟩

/-- The merged series is always sorted (non-strictly) by date. -/
theorem merge_pairwise_le (H D : List Sample) :
    (merge H D).Pairwise (fun a b => a.date ≤ b.date) := by
  have hs := @List.sorted_mergeSort Sample
    (fun a b : Sample => decide (a.date ≤ b.date))
    (fun a b c hab hbc => by
      simp only [decide_eq_true_eq] at hab hbc ⊢; omega)
    (fun a b => by
      simp only [Bool.or_eq_true, decide_eq_true_eq]; omega)
    (H ++ filterDaily H D)
  exact hs.imp (fun h => by simpa using h)

/-- The merged series is a permutation of the hourly series plus the
filtered daily series. -/
theorem merge_perm (H D : List Sample) :
    (merge H D).Perm (H ++ filterDaily H D) :=
  List.mergeSort_perm _ _

/-! ## Claim theorems for the series merge -/

/-- C4: if both series are non-empty and each has pairwise-distinct
dates, the merged series is strictly sorted ascending by date (so it is
sorted and contains no two samples with equal dates). -/
theorem merge_sorted_nodup (H D : List Sample) (hH : H ≠ []) (hD : D ≠ [])
    (h1 : (H.map (fun s => s.date)).Nodup)
    (h2 : (D.map (fun s => s.date)).Nodup) :
    (merge H D).Pairwise (fun a b => a.date < b.date) := by
  have hsorted := merge_pairwise_le H D
  have hnodup : ((merge H D).map (fun s => s.date)).Nodup := by
    have hpm : ((merge H D).map (fun s => s.date)).Perm
        ((H ++ filterDaily H D).map (fun s => s.date)) :=
      (merge_perm H D).map _
    refine hpm.nodup_iff.mpr ?_
    rw [List.map_append, List.nodup_append]
    refine ⟨h1, ?_, ?_⟩
    · have hsub : List.Sublist (filterDaily H D) D := by
        unfold filterDaily
        split
        · exact List.filter_sublist D
        · exact List.Sublist.refl D
      exact h2.sublist (hsub.map _)
    · intro x hx hx'
      obtain ⟨sh, hsh, rfl⟩ := List.mem_map.mp hx
      obtain ⟨sd, hsd, hdd⟩ := List.mem_map.mp hx'
      have hup : sh.date ≤ dateMax H := date_le_dateMax hsh
      have hfd : dateMax H < sd.date := by
        unfold filterDaily at hsd
        rw [if_pos ⟨List.length_pos.mpr hH, List.length_pos.mpr hD⟩] at hsd
        have := (List.mem_filter.mp hsd).2
        simpa using this
      omega
  have hne : (merge H D).Pairwise (fun a b => a.date ≠ b.date) :=
    List.pairwise_map.mp hnodup
  exact (hsorted.and hne).imp (fun h => lt_of_le_of_ne h.1 h.2)

/-- Witness for C4 at a concrete pair of series. -/
theorem merge_sorted_nodup_witness :
    (merge [mkDate 0, mkDate 3] [mkDate 3, mkDate 7]).Pairwise
      (fun a b => a.date < b.date) :=
  merge_sorted_nodup [mkDate 0, mkDate 3] [mkDate 3, mkDate 7]
    (by decide) (by decide) (by decide) (by decide)

/-- C5: for non-empty series, a sample is in the merged series exactly
when it is hourly, or daily with a date strictly greater than the
maximum hourly date (so a daily sample whose date equals the maximum
hourly date is dropped); moreover `dateMax` is precisely the maximum of
the hourly dates. -/
theorem merge_drops_le (H D : List Sample) (hH : H ≠ []) (hD : D ≠ []) :
    (∀ s : Sample, s ∈ merge H D ↔ s ∈ H ∨ (s ∈ D ∧ dateMax H < s.date)) ∧
      (∀ s ∈ H, s.date ≤ dateMax H) ∧ (∃ s ∈ H, s.date = dateMax H) := by
  refine ⟨?_, fun s hs => date_le_dateMax hs, dateMax_mem hH⟩
  intro s
  unfold merge sortByDate
  rw [List.mem_mergeSort, List.mem_append]
  unfold filterDaily
  rw [if_pos ⟨List.length_pos.mpr hH, List.length_pos.mpr hD⟩]
  simp [List.mem_filter]

/-- Witness for C5: on hourly dates `{0, 2}` and daily dates `{2, 5}`,
the daily sample at the shared boundary date 2 is dropped. -/
theorem merge_drops_le_witness :
    ((∀ s : Sample, s ∈ merge [mkDate 0, mkDate 2] [mkDate 2, mkDate 5] ↔
        s ∈ [mkDate 0, mkDate 2] ∨
          (s ∈ [mkDate 2, mkDate 5] ∧
            dateMax [mkDate 0, mkDate 2] < s.date)) ∧
      (∀ s ∈ [mkDate 0, mkDate 2], s.date ≤ dateMax [mkDate 0, mkDate 2]) ∧
      (∃ s ∈ [mkDate 0, mkDate 2], s.date = dateMax [mkDate 0, mkDate 2])) :=
  merge_drops_le [mkDate 0, mkDate 2] [mkDate 2, mkDate 5]
    (by decide) (by decide)

/-- C6 counterexample: merge with an empty daily input is not the
identity on the hourly input: an unsorted hourly series is reordered. -/
theorem merge_identity_cex :
    merge [mkDate 2, mkDate 1] [] ≠ [mkDate 2, mkDate 1] := by
  intro hEq
  have hs := merge_pairwise_le [mkDate 2, mkDate 1] []
  rw [hEq] at hs
  have h2 := (List.pairwise_cons.mp hs).1 (mkDate 1) (by simp)
  simp [mkDate] at h2

/-- C6 (amended): merge with exactly one non-empty input returns that
input sorted stably ascending by date — hence unchanged whenever the
input is already sorted by date — and `merge [] [] = []`. -/
theorem merge_single_input (H D : List Sample)
    (hH : H.Pairwise (fun a b => a.date ≤ b.date))
    (hD : D.Pairwise (fun a b => a.date ≤ b.date)) :
    merge H [] = H ∧ merge [] D = D ∧ merge [] [] = ([] : List Sample) := by
  refine ⟨?_, ?_, ?_⟩
  · unfold merge filterDaily sortByDate
    rw [if_neg (by simp)]
    rw [List.append_nil]
    exact List.mergeSort_of_sorted (hH.imp (fun h => decide_eq_true h))
  · unfold merge filterDaily sortByDate
    rw [if_neg (by simp)]
    rw [List.nil_append]
    exact List.mergeSort_of_sorted (hD.imp (fun h => decide_eq_true h))
  · simp [merge, filterDaily, sortByDate]

/-- Witness for C6 on concrete sorted series. -/
theorem merge_single_input_witness :
    merge [mkDate 1, mkDate 2] [] = [mkDate 1, mkDate 2] ∧
      merge [] [mkDate 3, mkDate 4] = [mkDate 3, mkDate 4] ∧
      merge [] [] = ([] : List Sample) :=
  merge_single_input [mkDate 1, mkDate 2] [mkDate 3, mkDate 4]
    (by decide) (by decide)

/-! ## Helper lemmas for the period assignment -/

/-- `mapM` over `Option` succeeds pointwise. -/
theorem mapM_eq_map {β : Type} (f : Nat → Option β) (g : Nat → β) :
    ∀ (xs : List Nat), (∀ x ∈ xs, f x = some (g x)) →
      xs.mapM f = some (xs.map g) := by
  intro xs
  induction xs with
  | nil => intro _; rfl
  | cons x t ih =>
    intro h
    rw [List.mapM_cons, h x (List.mem_cons_self x t),
      ih (fun y hy => h y (List.mem_cons_of_mem x hy))]
    rfl

/-! ## Claim theorems for the period assignment -/

/-- C7: on a series of length at least 2 the period assignment succeeds,
and the period of sample `i` is the absolute date difference to sample
`i+1` when it exists, else to sample `i-1`. -/
theorem assignPeriods_spec (l : List Sample) (h : 2 ≤ l.length) :
    assignPeriods l = some ((List.range l.length).map (fun i =>
      |(l.getD i default).date -
        (l.getD (if i + 1 < l.length then i + 1 else i - 1) default).date|)) := by
  unfold assignPeriods
  apply mapM_eq_map
  intro i hi
  have hi' : i < l.length := List.mem_range.mp hi
  unfold periodAt jsGet neighborIndex
  by_cases hc : i + 1 < l.length
  · rw [if_pos hc, if_pos (by omega : (0 : Int) ≤ (i : Int) + 1)]
    rw [show ((i : Int) + 1).toNat = i + 1 by omega]
    rw [List.getElem?_eq_getElem hc, List.getElem?_eq_getElem hi']
    simp [hc, List.getD_eq_getElem?_getD, List.getElem?_eq_getElem, hi']
  · have h1 : 1 ≤ i := by omega
    rw [if_neg hc, if_pos (by omega : (0 : Int) ≤ (i : Int) + -1)]
    rw [show ((i : Int) + -1).toNat = i - 1 by omega]
    have hm : i - 1 < l.length := by omega
    rw [List.getElem?_eq_getElem hm, List.getElem?_eq_getElem hi']
    simp [hc, List.getD_eq_getElem?_getD, List.getElem?_eq_getElem, hi', hm]

/-- Witness for C7: the spec's concrete example, three samples at dates
0, 10, 30 get periods `[10, 20, 20]` (the last reuses its predecessor's
spacing). -/
theorem assignPeriods_spec_witness :
    assignPeriods [mkDate 0, mkDate 10, mkDate 30] = some [10, 20, 20] := by
  rw [assignPeriods_spec [mkDate 0, mkDate 10, mkDate 30] (by decide)]
  decide

/-- C8: the period assignment is not total.  On a merged series
containing a single sample with a defined `precipitationAmount`, the
neighbor index is `-1`, the JS access `data[-1]` yields `undefined`, and
`undefined.date` throws (modelled by `none`) — contradicting the
"no exceptions" claim. -/
theorem assignPeriods_singleton_crash :
    assignPeriods (precipDefined [⟨0, none, none, none, none, some (some 1)⟩])
      = none := by
  decide

/-! ## Helper lemmas for the temperature axis domain -/

/-- A non-empty integer list has a minimum bounded by each member. -/
theorem min?_exists_le {xs : List Int} {a : Int} (ha : a ∈ xs) :
    ∃ m, xs.min? = some m ∧ m ≤ a := by
  obtain ⟨m, hm⟩ : ∃ m, xs.min? = some m := by
    cases hx : xs.min? with
    | none =>
      rw [List.min?_eq_none_iff] at hx
      subst hx
      simp at ha
    | some m => exact ⟨m, rfl⟩
  exact ⟨m, hm,
    ((List.le_min?_iff (fun a b c => le_min_iff) hm).mp (le_refl m)) a ha⟩

/-- A non-empty integer list has a maximum bounding each member. -/
theorem max?_exists_ge {xs : List Int} {a : Int} (ha : a ∈ xs) :
    ∃ m, xs.max? = some m ∧ a ≤ m := by
  obtain ⟨m, hm⟩ : ∃ m, xs.max? = some m := by
    cases hx : xs.max? with
    | none =>
      rw [List.max?_eq_none_iff] at hx
      subst hx
      simp at ha
    | some m => exact ⟨m, rfl⟩
  exact ⟨m, hm,
    ((List.max?_le_iff (fun a b c => max_le_iff) hm).mp (le_refl m)) a ha⟩

/-! ## Claim theorems for missing-data handling -/

/-- C10 counterexample: the temperature axis-domain computation does not
exclude samples with absent temperature fields — adding a sample with
all optional fields absent moves the lower domain bound from 9 (from the
sample at 10 degrees) to -1, because `ifNan` substitutes the fallback 0
for the absent values. -/
theorem tempDomain_excludes_cex :
    tempDomainLo [⟨0, some 10, some 10, some 10, some 10, none⟩] = some 9 ∧
      tempDomainLo [⟨0, some 10, some 10, some 10, some 10, none⟩, mkDate 1]
        = some (-1) := by
  decide

/-- C10 (amended): a sample with an absent `temperature` is excluded
from the temperature plot and from its extrema labels without error; but
the temperature axis-domain computation substitutes fallbacks (0 on the
min side, 40 on the max side) for absent fields instead of excluding the
sample, so one sample with all temperature fields absent forces the
domain to at most -1 below and at least 41 above. -/
theorem tempDomain_substitutes (data : List Sample) (d : Sample)
    (hd : d ∈ data) (ht : d.temperature = none)
    (hmin : d.minTemperature = none) (hmax : d.maxTemperature = none)
    (hfeel : d.feelsLikeTemp = none) :
    d ∉ temperaturePlotData data ∧
      (∀ (g : Sample → Int) (minDelta : Option Int),
        d ∉ keepExtremes (temperaturePlotData data) g minDelta) ∧
      (∃ lo, tempDomainLo data = some lo ∧ lo ≤ -1) ∧
      (∃ hi, tempDomainHi data = some hi ∧ 41 ≤ hi) := by
  have hexcl : d ∉ temperaturePlotData data := by
    intro hmem
    have := (List.mem_filter.mp hmem).2
    rw [ht] at this
    simp [truthy] at this
  refine ⟨hexcl, ?_, ?_, ?_⟩
  · intro g minDelta hmem
    exact hexcl
      (((keepLoop_sublist g minDelta _ _ _).trans
        (List.tail_sublist _)).subset hmem)
  · have hacc : tempDomainLoAcc d = -1 := by
      simp [tempDomainLoAcc, ifNan, ht, hmin, hfeel]
    have hmem : (-1 : Int) ∈ data.map tempDomainLoAcc := by
      rw [← hacc]
      exact List.mem_map_of_mem _ hd
    obtain ⟨m, hm, hle⟩ := min?_exists_le hmem
    exact ⟨m, hm, hle⟩
  · have hacc : tempDomainHiAcc d = 41 := by
      simp [tempDomainHiAcc, ifNan, ht, hmax, hfeel]
    have hmem : (41 : Int) ∈ data.map tempDomainHiAcc := by
      rw [← hacc]
      exact List.mem_map_of_mem _ hd
    obtain ⟨m, hm, hge⟩ := max?_exists_ge hmem
    exact ⟨m, hm, hge⟩

/-- Witness for C10 at a concrete two-sample series containing one
all-absent sample. -/
theorem tempDomain_substitutes_witness :
    mkDate 1 ∉ temperaturePlotData
        [⟨0, some 10, some 10, some 10, some 10, none⟩, mkDate 1] ∧
      (∀ (g : Sample → Int) (minDelta : Option Int),
        mkDate 1 ∉ keepExtremes (temperaturePlotData
          [⟨0, some 10, some 10, some 10, some 10, none⟩, mkDate 1])
          g minDelta) ∧
      (∃ lo, tempDomainLo
          [⟨0, some 10, some 10, some 10, some 10, none⟩, mkDate 1]
          = some lo ∧ lo ≤ -1) ∧
      (∃ hi, tempDomainHi
          [⟨0, some 10, some 10, some 10, some 10, none⟩, mkDate 1]
          = some hi ∧ 41 ≤ hi) :=
  tempDomain_substitutes _ (mkDate 1) (by decide) (by decide) (by decide)
    (by decide) (by decide)

end WeatherChartD3
